import Mathlib

/-!
# Verification of `OutputManager` (src/OutputManager.h)

A shallow embedding of the `OutputManager<OutType, StringType>` class.

The C++ class wraps a reference to an output stream (`OutStream__`) and holds
a separator string, an end-of-line string and a minimum field width.  Print
operations write formatted text onto the stream; some setters mutate the
manager's own fields (`SetWidth`, `SetSeparator`, `SetEndOfLine`) while others
forward persistent formatting directives onto the stream itself
(`SetAlignment`, `SetPrecision`, `SetFloatMode`).

Modelling choices:
* Printable values are modelled as their textual representations (`String`);
  `operator<<` on a value becomes appending that string to the stream buffer.
* `std::setw(Width__) << x` becomes padding the string to the configured
  minimum width, filled with spaces on the side chosen by the stream's
  persistent adjustfield (`std::left` / `std::right` / `std::internal`;
  for these plain-string values `internal` pads in front, like `right`).
* The output stream is explicit state: a `StreamState` carrying the
  accumulated output buffer plus the persistent formatting directives that
  the class forwards to it.  The manager's `OutStream__` reference is
  modelled as an immutable stream identifier (`OutStream` field).
* C++ iterators over sequences become Lean lists; advancing an iterator is
  `List.tail`, dereferencing is `List.headD`/`List.getD` (total versions of
  the partial C++ operations, which are undefined behaviour past the end;
  every theorem that relies on in-bounds access carries the corresponding
  length hypothesis, matching the header's documented preconditions).
-/

/-- The stream's persistent adjustfield, set by `std::left`, `std::right`,
`std::internal` (`SetAlignment`). -/
inductive AlignMode where
  | left
  | right
  | internal
  deriving DecidableEq, Repr

/-- The state of the wrapped output stream: the text written so far plus the
persistent formatting directives (`adjustfield`, `precision`, the `fixed` and
`scientific` floatfield flags) that `OutputManager` forwards onto it. -/
structure StreamState where
  buf : String
  align : AlignMode
  precision : Nat
  fixedFlag : Bool
  sciFlag : Bool
  deriving DecidableEq, Repr

/-- Appending text to the stream (`OutStream__ << s`). -/
def write (st : StreamState) (s : String) : StreamState :=
  { st with buf := st.buf ++ s }

/-- `n` space characters, the stream's fill characters. -/
def spaces (n : Nat) : String :=
  String.mk (List.replicate n ' ')

/-- `OutStream__ << std::setw(w) << v` for a value whose textual form is `v`:
pad to at least `w` characters, on the side given by the stream's persistent
adjustfield. -/
def padTo (w : Nat) (a : AlignMode) (v : String) : String :=
  if w ≤ v.length then v
  else
    match a with
    | AlignMode.left => v ++ spaces (w - v.length)
    | AlignMode.right => spaces (w - v.length) ++ v
    | AlignMode.internal => spaces (w - v.length) ++ v

/-- The `OutputManager` object itself: the (immutable) identifier of the
referenced output stream `OutStream__`, and the fields `Separator__`,
`EndOfLine__`, `Width__`. -/
structure OutputManager where
  OutStream : Nat
  Separator : String
  EndOfLine : String
  Width : Nat
  deriving DecidableEq, Repr

/-- Identifier of the process-wide default stream `std::wcout`, used by the
constructors that take no stream argument. -/
def wcoutId : Nat := 0

namespace OutputManager

/-- `SetAlignment(Alignment)`: writes `std::left` when positive, `std::right`
when negative, `std::internal` when zero — a persistent directive on the
stream. -/
def SetAlignment (st : StreamState) (alignment : Int) : StreamState :=
  if alignment ≠ 0 then
    if alignment > 0 then { st with align := AlignMode.left }
    else { st with align := AlignMode.right }
  else { st with align := AlignMode.internal }

/-- Default constructor: `OutStream__{std::wcout}, Separator__{L" "},
EndOfLine__{L"\n"}`, then `SetAlignment(1)` on the stream. -/
def mkDefault (st : StreamState) : OutputManager × StreamState :=
  ({ OutStream := wcoutId, Separator := " ", EndOfLine := "\n", Width := 0 },
    SetAlignment st 1)

/-- Constructor taking a stream: only `OutStream__` is caller-chosen, then
`SetAlignment(1)` on the stream. -/
def mkWithStream (outStream : Nat) (st : StreamState) : OutputManager × StreamState :=
  ({ OutStream := outStream, Separator := " ", EndOfLine := "\n", Width := 0 },
    SetAlignment st 1)

/-- Constructor taking separator and end-of-line: stream defaults to
`std::wcout`, then `SetAlignment(1)` on the stream. -/
def mkWithStrings (separator endOfLine : String) (st : StreamState) :
    OutputManager × StreamState :=
  ({ OutStream := wcoutId, Separator := separator, EndOfLine := endOfLine, Width := 0 },
    SetAlignment st 1)

/-- Constructor taking stream, separator and end-of-line, then
`SetAlignment(1)` on the stream. -/
def mkFull (outStream : Nat) (separator endOfLine : String) (st : StreamState) :
    OutputManager × StreamState :=
  ({ OutStream := outStream, Separator := separator, EndOfLine := endOfLine, Width := 0 },
    SetAlignment st 1)

/-- The three `operator()` overloads, on the list of the arguments' textual
forms.
* `[]`  — `operator()()`: `OutStream__ << EndOfLine__`.
* `[v]` — `operator()(T&&)`: `OutStream__ << std::setw(Width__) << v << EndOfLine__`.
* `v :: w :: rest` — the variadic overload: `OutStream__ << std::setw(Width__)
  << v << Separator__;` then the recursive call on the remaining pack. -/
def opCall (om : OutputManager) (st : StreamState) : List String → StreamState
  | [] => write st om.EndOfLine
  | [v] => write st (padTo om.Width st.align v ++ om.EndOfLine)
  | v :: w :: rest =>
      opCall om (write st (padTo om.Width st.align v ++ om.Separator)) (w :: rest)

/-- `PrintRange(Begin, End)`: for each element of the range, `OutStream__ <<
std::setw(Width__) << *Begin << Separator__`; then `OutStream__ <<
EndOfLine__` once. -/
def PrintRange (om : OutputManager) (st : StreamState) : List String → StreamState
  | [] => write st om.EndOfLine
  | v :: rest =>
      PrintRange om (write st (padTo om.Width st.align v ++ om.Separator)) rest

/-- `FormatToColumns(Begin, End, Others...)`: while `Begin != End`, call
`operator()(*Begin, *Others...)` and advance every iterator of `Others` by
one.  The pack of "others" iterators is modelled as a list of lists:
dereferencing is `headD`, advancing is `tail`. -/
def FormatToColumns (om : OutputManager) (st : StreamState) :
    List String → List (List String) → StreamState
  | [], _ => st
  | v :: rest, others =>
      FormatToColumns om
        (opCall om st (v :: others.map (fun l => l.headD "")))
        rest (others.map List.tail)

/-- The fold over the `Others` pack in `FormatToRows`: for each other range,
compute `NewEnd` by advancing its begin by `n = std::distance(Begin, End)` and
`PrintRange(NewBegin, NewEnd)`. -/
def formatRowsAux (om : OutputManager) (n : Nat) :
    StreamState → List (List String) → StreamState
  | st, [] => st
  | st, l :: rest => formatRowsAux om n (PrintRange om st (l.take n)) rest

/-- `FormatToRows(Begin, End, Others...)`: `PrintRange(Begin, End)` first,
then the fold over `Others`. -/
def FormatToRows (om : OutputManager) (st : StreamState)
    (first : List String) (others : List (List String)) : StreamState :=
  formatRowsAux om first.length (PrintRange om st first) others

/-- `FirstNElementsRows(N, Begin, Others...)`: compute `End` by advancing
`Begin` by `N`, then delegate to `FormatToRows(Begin, End, Others...)`. -/
def FirstNElementsRows (om : OutputManager) (st : StreamState)
    (n : Nat) (first : List String) (others : List (List String)) : StreamState :=
  FormatToRows om st (first.take n) others

/-- `SetWidth(Width)`: `Width__ = Width`. -/
def SetWidth (om : OutputManager) (width : Nat) : OutputManager :=
  { om with Width := width }

/-- `SetSeparator(Separator)`: `Separator__ = Separator`. -/
def SetSeparator (om : OutputManager) (separator : String) : OutputManager :=
  { om with Separator := separator }

/-- `SetEndOfLine(EndOfLine)`: `EndOfLine__ = EndOfLine`. -/
def SetEndOfLine (om : OutputManager) (endOfLine : String) : OutputManager :=
  { om with EndOfLine := endOfLine }

/-- `SetPrecision(Precision)`: `OutStream__ << std::setprecision(Precision)`,
a persistent directive on the stream. -/
def SetPrecision (st : StreamState) (precision : Nat) : StreamState :=
  { st with precision := precision }

/-- `SetFloatMode(Mode)`: `std::fixed` when positive, `std::scientific` when
negative, and when zero `unsetf` of both floatfield flags. -/
def SetFloatMode (st : StreamState) (mode : Int) : StreamState :=
  if mode ≠ 0 then
    if mode > 0 then { st with fixedFlag := true, sciFlag := false }
    else { st with fixedFlag := false, sciFlag := true }
  else { st with fixedFlag := false, sciFlag := false }

/-- Concatenation of a list of strings, used to describe written output. -/
def concatAll : List String → String
  | [] => ""
  | s :: rest => s ++ concatAll rest

/-- The text the variadic `operator()` writes for a given (nonempty) argument
list: each argument padded, separator between consecutive arguments, the
end-of-line string after the last.  For the empty list it is the text of
`operator()()`, just the end-of-line string. -/
def sepLine (om : OutputManager) (a : AlignMode) : List String → String
  | [] => om.EndOfLine
  | [v] => padTo om.Width a v ++ om.EndOfLine
  | v :: w :: rest => padTo om.Width a v ++ (om.Separator ++ sepLine om a (w :: rest))

/-- The text `PrintRange` writes for a given range: every element padded and
followed by the separator (the last included), then the end-of-line string. -/
def rangeLine (om : OutputManager) (a : AlignMode) (l : List String) : String :=
  concatAll (l.map (fun v => padTo om.Width a v ++ om.Separator)) ++ om.EndOfLine

/-- The text `FormatToColumns` writes: one `sepLine` per element of the first
range, consuming the heads of the other ranges row by row. -/
def colLines (om : OutputManager) (a : AlignMode) :
    List String → List (List String) → String
  | [], _ => ""
  | v :: rest, others =>
      sepLine om a (v :: others.map (fun l => l.headD "")) ++
        colLines om a rest (others.map List.tail)

/-- A concrete manager configuration (the defaults: space separator, newline
end-of-line, zero width), used in concrete evaluations. -/
def omDefault : OutputManager :=
  { OutStream := wcoutId, Separator := " ", EndOfLine := "\n", Width := 0 }

/-- A concrete initial stream state (empty buffer, left alignment, the
stream-default precision 6, no floatfield flags). -/
def stInit : StreamState :=
  { buf := "", align := AlignMode.left, precision := 6,
    fixedFlag := false, sciFlag := false }

theorem write_write (st : StreamState) (s t : String) :
    write (write st s) t = write st (s ++ t) := by
  simp [write, String.append_assoc]

theorem write_align (st : StreamState) (s : String) : (write st s).align = st.align := rfl

theorem write_precision (st : StreamState) (s : String) :
    (write st s).precision = st.precision := rfl

theorem write_buf (st : StreamState) (s : String) : (write st s).buf = st.buf ++ s := rfl

theorem write_empty (st : StreamState) : write st "" = st := by
  simp [write]

theorem opCall_eq (om : OutputManager) :
    ∀ (vs : List String) (st : StreamState),
      opCall om st vs = write st (sepLine om st.align vs) := by
  intro vs
  induction vs with
  | nil => intro st; rfl
  | cons v rest ih =>
      intro st
      cases rest with
      | nil => rfl
      | cons w r =>
          show opCall om (write st (padTo om.Width st.align v ++ om.Separator)) (w :: r) = _
          rw [ih, write_write, String.append_assoc]
          rfl

theorem PrintRange_eq (om : OutputManager) :
    ∀ (l : List String) (st : StreamState),
      PrintRange om st l = write st (rangeLine om st.align l) := by
  intro l
  induction l with
  | nil =>
      intro st
      show write st om.EndOfLine = write st (rangeLine om st.align [])
      simp [rangeLine, concatAll, String.empty_append]
  | cons v rest ih =>
      intro st
      show PrintRange om (write st (padTo om.Width st.align v ++ om.Separator)) rest = _
      rw [ih, write_write]
      simp [rangeLine, concatAll, String.append_assoc, write_align]

theorem FormatToColumns_eq (om : OutputManager) :
    ∀ (first : List String) (others : List (List String)) (st : StreamState),
      FormatToColumns om st first others = write st (colLines om st.align first others) := by
  intro first
  induction first with
  | nil =>
      intro others st
      show st = write st (colLines om st.align [] others)
      simp [colLines, write_empty]
  | cons v rest ih =>
      intro others st
      show FormatToColumns om (opCall om st (v :: others.map (fun l => l.headD "")))
          rest (others.map List.tail) = _
      rw [opCall_eq, ih, write_write]
      rfl

theorem formatRowsAux_eq (om : OutputManager) (n : Nat) :
    ∀ (others : List (List String)) (st : StreamState),
      formatRowsAux om n st others =
        write st (concatAll (others.map (fun l => rangeLine om st.align (l.take n)))) := by
  intro others
  induction others with
  | nil =>
      intro st
      show st = _
      simp [concatAll, write_empty]
  | cons l rest ih =>
      intro st
      show formatRowsAux om n (PrintRange om st (l.take n)) rest = _
      rw [PrintRange_eq, ih, write_write]
      simp [concatAll, String.append_assoc, write_align]

theorem FormatToRows_eq (om : OutputManager) (st : StreamState)
    (first : List String) (others : List (List String)) :
    FormatToRows om st first others =
      write st (rangeLine om st.align first ++
        concatAll (others.map (fun l => rangeLine om st.align (l.take first.length)))) := by
  unfold FormatToRows
  rw [PrintRange_eq, formatRowsAux_eq, write_write]
  simp only [write_align]

theorem headD_eq_getD_zero {α : Type} (l : List α) (d : α) : l.headD d = l.getD 0 d := by
  cases l <;> rfl

theorem tail_getD {α : Type} (l : List α) (i : Nat) (d : α) :
    l.tail.getD i d = l.getD (i + 1) d := by
  cases l <;> rfl

theorem map_headD_eq_map_getD_zero (os : List (List String)) :
    os.map (fun l => l.headD "") = os.map (fun l => l.getD 0 "") := by
  induction os with
  | nil => rfl
  | cons l rest ih => rw [List.map_cons, List.map_cons, ih, headD_eq_getD_zero]

theorem map_tail_getD (os : List (List String)) (i : Nat) :
    (os.map List.tail).map (fun l => l.getD i "") = os.map (fun l => l.getD (i + 1) "") := by
  induction os with
  | nil => rfl
  | cons l rest ih =>
      rw [List.map_cons, List.map_cons, List.map_cons, ih, tail_getD]

theorem colLines_eq_lines (om : OutputManager) (a : AlignMode) :
    ∀ (first : List String) (others : List (List String)),
      colLines om a first others =
        concatAll ((List.range first.length).map (fun i =>
          sepLine om a (first.getD i "" :: others.map (fun l => l.getD i "")))) := by
  intro first
  induction first with
  | nil => intro others; rfl
  | cons v rest ih =>
      intro others
      show sepLine om a (v :: others.map (fun l => l.headD "")) ++
          colLines om a rest (others.map List.tail) = _
      rw [ih]
      rw [List.length_cons, List.range_succ_eq_map, List.map_cons, List.map_map]
      have hfun : (fun i => sepLine om a (rest.getD i "" ::
            (others.map List.tail).map (fun l => l.getD i ""))) =
          (fun i => sepLine om a ((v :: rest).getD i "" ::
            others.map (fun l => l.getD i ""))) ∘ Nat.succ := by
        funext i
        show sepLine om a (rest.getD i "" :: (others.map List.tail).map (fun l => l.getD i "")) =
          sepLine om a ((v :: rest).getD (i + 1) "" :: others.map (fun l => l.getD (i + 1) ""))
        rw [map_tail_getD, List.getD_cons_succ]
      show sepLine om a (v :: others.map (fun l => l.headD "")) ++ _ =
        concatAll (sepLine om a ((v :: rest).getD 0 "" :: others.map (fun l => l.getD 0 "")) :: _)
      rw [map_headD_eq_map_getD_zero, List.getD_cons_zero, hfun]
      rfl

theorem FormatToRows_nil (om : OutputManager) (st : StreamState)
    (others : List (List String)) :
    FormatToRows om st [] others =
      write st (concatAll (List.replicate (1 + others.length) om.EndOfLine)) := by
  rw [FormatToRows_eq]
  have hmap : others.map (fun l => rangeLine om st.align (l.take ([] : List String).length)) =
      List.replicate others.length om.EndOfLine := by
    induction others with
    | nil => rfl
    | cons l rest ih => simp_all [rangeLine, concatAll, String.empty_append, List.replicate_succ]
  rw [hmap]
  have hrep : (List.replicate (1 + others.length) om.EndOfLine) =
      om.EndOfLine :: List.replicate others.length om.EndOfLine := by
    rw [Nat.add_comm]
    rfl
  rw [hrep]
  show write st (rangeLine om st.align [] ++ _) = write st (concatAll (om.EndOfLine :: _))
  simp [rangeLine, concatAll, String.empty_append]

/-- Concrete first range used for concrete evaluations (the header's example,
truncated). -/
def firstW : List String := ["1", "2", "3"]

/-- Concrete pack of "others" ranges used for concrete evaluations. -/
def othersW : List (List String) := [["1.1", "2.1", "3.1"], ["Cat", "Dog", "Mouse"]]

/-- Claim C1: for a first sequence of length `n` and parallel sequences each of
length at least `n`, `FormatToColumns` writes exactly `n` lines, line `i`
holding the `i`-th element of the first sequence followed by the `i`-th element
of each other sequence in argument order, each element padded to the minimum
width, joined by the separator and terminated by the end-of-line string; the
others' iterators advance by one per row. -/
theorem formatToColumns_spec (om : OutputManager) (st : StreamState)
    (first : List String) (others : List (List String))
    (h : ∀ l ∈ others, first.length ≤ l.length) :
    FormatToColumns om st first others =
      write st (concatAll ((List.range first.length).map (fun i =>
        sepLine om st.align (first.getD i "" :: others.map (fun l => l.getD i ""))))) := by
  rw [FormatToColumns_eq, colLines_eq_lines]

/-- Witness for C1 at the header's documented example. -/
theorem formatToColumns_spec_witness :
    (∀ l ∈ othersW, firstW.length ≤ l.length) ∧
    FormatToColumns omDefault stInit firstW othersW =
      write stInit (concatAll ((List.range firstW.length).map (fun i =>
        sepLine omDefault stInit.align
          (firstW.getD i "" :: othersW.map (fun l => l.getD i ""))))) :=
  ⟨by decide, formatToColumns_spec omDefault stInit firstW othersW (by decide)⟩

/-- Claim C2: for a first sequence of length `n` and `k` parallel sequences
each of length at least `n`, `FormatToRows` writes exactly `1 + k` lines: the
full first sequence via the range-printing rule, then each other sequence's
first `n` elements via the same rule, in argument order. -/
theorem formatToRows_spec (om : OutputManager) (st : StreamState)
    (first : List String) (others : List (List String))
    (h : ∀ l ∈ others, first.length ≤ l.length) :
    FormatToRows om st first others =
      write st (concatAll ((first :: others.map (fun l => l.take first.length)).map
        (fun l => rangeLine om st.align l))) := by
  rw [FormatToRows_eq]
  simp [concatAll, List.map_map, Function.comp_def]

/-- Witness for C2 at the header's documented example. -/
theorem formatToRows_spec_witness :
    (∀ l ∈ othersW, firstW.length ≤ l.length) ∧
    FormatToRows omDefault stInit firstW othersW =
      write stInit (concatAll ((firstW :: othersW.map (fun l => l.take firstW.length)).map
        (fun l => rangeLine omDefault stInit.align l))) :=
  ⟨by decide, formatToRows_spec omDefault stInit firstW othersW (by decide)⟩

/-- Claim C3: with the default separator (one space) and default end-of-line
(newline), `PrintRange` writes every element padded to the minimum width and
followed by the separator — the last element included, so the trailing
separator before the end-of-line is preserved — then the end-of-line once. -/
theorem printRange_spec (om : OutputManager) (st : StreamState) (S : List String)
    (hsep : om.Separator = " ") (heol : om.EndOfLine = "\n") :
    PrintRange om st S =
      write st (concatAll (S.map (fun v => padTo om.Width st.align v ++ " ")) ++ "\n") := by
  rw [PrintRange_eq]
  simp only [rangeLine, hsep, heol]

/-- Witness for C3 at a concrete range. -/
theorem printRange_spec_witness :
    omDefault.Separator = " " ∧ omDefault.EndOfLine = "\n" ∧
    PrintRange omDefault stInit firstW =
      write stInit (concatAll (firstW.map (fun v =>
        padTo omDefault.Width stInit.align v ++ " ")) ++ "\n") :=
  ⟨rfl, rfl, printRange_spec omDefault stInit firstW rfl rfl⟩

/-- Claim C4: the variadic print writes its first argument padded to the
minimum width, then the separator, then recurses on the remaining arguments;
the final argument goes through the single-value rule (padded, then
end-of-line, no trailing separator).  In particular with width 0,
`print(a, b, c)` writes exactly `a ++ sep ++ b ++ sep ++ c ++ eol`. -/
theorem variadic_print_spec (om : OutputManager) (st : StreamState) :
    (∀ v, opCall om st [v] = write st (padTo om.Width st.align v ++ om.EndOfLine)) ∧
    (∀ v w rest, opCall om st (v :: w :: rest) =
        opCall om (write st (padTo om.Width st.align v ++ om.Separator)) (w :: rest)) ∧
    (om.Width = 0 → ∀ a b c, opCall om st [a, b, c] =
        write st (a ++ om.Separator ++ b ++ om.Separator ++ c ++ om.EndOfLine)) := by
  refine ⟨fun v => rfl, fun v w rest => rfl, fun hw a b c => ?_⟩
  rw [opCall_eq]
  simp [sepLine, padTo, hw, String.append_assoc]

/-- Witness for C4: `print("a", "b", "c")` at width 0 with the defaults. -/
theorem variadic_print_spec_witness :
    omDefault.Width = 0 ∧
    opCall omDefault stInit ["a", "b", "c"] =
      write stInit ("a" ++ omDefault.Separator ++ "b" ++ omDefault.Separator ++ "c" ++
        omDefault.EndOfLine) :=
  ⟨rfl, (variadic_print_spec omDefault stInit).2.2 rfl "a" "b" "c"⟩

/-- Claim C5: `SetPrecision n` sets the stream's persistent precision
directive to `n`, and the directive persists on the destination across all
later print operations. -/
theorem setPrecision_spec (st : StreamState) (n : Nat) :
    (SetPrecision st n).precision = n ∧
    (∀ om vs, (opCall om (SetPrecision st n) vs).precision = n) ∧
    (∀ om l, (PrintRange om (SetPrecision st n) l).precision = n) ∧
    (∀ om first others, (FormatToColumns om (SetPrecision st n) first others).precision = n) ∧
    (∀ om first others, (FormatToRows om (SetPrecision st n) first others).precision = n) ∧
    (∀ om k first others,
      (FirstNElementsRows om (SetPrecision st n) k first others).precision = n) := by
  refine ⟨rfl, ?_, ?_, ?_, ?_, ?_⟩ <;> intros <;>
    simp [opCall_eq, PrintRange_eq, FormatToColumns_eq, FormatToRows_eq,
      FirstNElementsRows, write_precision, SetPrecision]

/-- Claim C6: `FirstNElementsRows n` truncates every input sequence to its
first `n` elements before applying the row-formatting rule; with `n = 0` it
writes one empty line (just the end-of-line string) per input sequence. -/
theorem firstNElementsRows_spec (om : OutputManager) (st : StreamState)
    (n : Nat) (first : List String) (others : List (List String))
    (h1 : n ≤ first.length) (h2 : ∀ l ∈ others, n ≤ l.length) :
    FirstNElementsRows om st n first others =
      write st (rangeLine om st.align (first.take n) ++
        concatAll (others.map (fun l => rangeLine om st.align (l.take n)))) ∧
    FirstNElementsRows om st 0 first others =
      write st (concatAll (List.replicate (1 + others.length) om.EndOfLine)) := by
  constructor
  · show FormatToRows om st (first.take n) others = _
    rw [FormatToRows_eq]
    have hlen : (first.take n).length = n := by
      rw [List.length_take]
      exact Nat.min_eq_left h1
    rw [hlen]
  · show FormatToRows om st (first.take 0) others = _
    rw [List.take_zero]
    exact FormatToRows_nil om st others

/-- Witness for C6 at a concrete truncation. -/
theorem firstNElementsRows_spec_witness :
    2 ≤ firstW.length ∧ (∀ l ∈ othersW, 2 ≤ l.length) ∧
    FirstNElementsRows omDefault stInit 2 firstW othersW =
      write stInit (rangeLine omDefault stInit.align (firstW.take 2) ++
        concatAll (othersW.map (fun l => rangeLine omDefault stInit.align (l.take 2)))) :=
  ⟨by decide, by decide,
    (firstNElementsRows_spec omDefault stInit 2 firstW othersW (by decide) (by decide)).1⟩

/-- Claim C7: `SetAlignment 0` sets internal alignment, a positive argument
sets left-justification, a negative one sets right-justification — written
immediately as a persistent directive on the stream (the buffer is untouched
and print operations never change the alignment) — and all four constructors
default the alignment to left as a side effect of construction. -/
theorem setAlignment_spec :
    (∀ (st : StreamState) (m : Int), m = 0 →
      (SetAlignment st m).align = AlignMode.internal) ∧
    (∀ (st : StreamState) (m : Int), 0 < m → (SetAlignment st m).align = AlignMode.left) ∧
    (∀ (st : StreamState) (m : Int), m < 0 → (SetAlignment st m).align = AlignMode.right) ∧
    (∀ (st : StreamState) (m : Int), (SetAlignment st m).buf = st.buf) ∧
    (∀ (om : OutputManager) (st : StreamState) (vs : List String),
      (opCall om st vs).align = st.align) ∧
    (∀ st, (mkDefault st).2.align = AlignMode.left) ∧
    (∀ s st, (mkWithStream s st).2.align = AlignMode.left) ∧
    (∀ sep eol st, (mkWithStrings sep eol st).2.align = AlignMode.left) ∧
    (∀ s sep eol st, (mkFull s sep eol st).2.align = AlignMode.left) := by
  refine ⟨?_, ?_, ?_, ?_, ?_, ?_, ?_, ?_, ?_⟩
  · intro st m hm; simp [SetAlignment, hm]
  · intro st m hm; simp [SetAlignment, ne_of_gt hm, hm]
  · intro st m hm; simp [SetAlignment, ne_of_lt hm, not_lt.mpr (le_of_lt hm)]
  · intro st m; simp only [SetAlignment]; split_ifs <;> rfl
  · intro om st vs; rw [opCall_eq]; rfl
  · intro st; rfl
  · intro s st; rfl
  · intro sep eol st; rfl
  · intro s sep eol st; rfl

/-- Witness for C7 at the three sign classes of the argument. -/
theorem setAlignment_spec_witness :
    (SetAlignment stInit 0).align = AlignMode.internal ∧
    (SetAlignment stInit 2).align = AlignMode.left ∧
    (SetAlignment stInit (-3)).align = AlignMode.right :=
  ⟨setAlignment_spec.1 stInit 0 rfl,
   setAlignment_spec.2.1 stInit 2 (by decide),
   setAlignment_spec.2.2.1 stInit (-3) (by decide)⟩

/-- Claim C8: the zero-argument print writes exactly the configured
end-of-line string to the stream and nothing else — no separator, no
padding. -/
theorem print_no_args_spec (om : OutputManager) (st : StreamState) :
    opCall om st [] = write st om.EndOfLine ∧
    (opCall om st []).buf = st.buf ++ om.EndOfLine :=
  ⟨rfl, rfl⟩

/-- Claim C9: the output-destination reference is fixed at construction —
each constructor stores exactly the stream it was given (or the process-wide
default) — and no setter reassigns it.  (Print operations do not return a
modified manager at all; the deleted copy constructor and copy assignment are
a type-level fact of the header, outside the state model.) -/
theorem outStream_fixed_spec :
    (∀ (om : OutputManager) (w : Nat), (SetWidth om w).OutStream = om.OutStream) ∧
    (∀ (om : OutputManager) (s : String), (SetSeparator om s).OutStream = om.OutStream) ∧
    (∀ (om : OutputManager) (s : String), (SetEndOfLine om s).OutStream = om.OutStream) ∧
    (∀ (d : Nat) (st : StreamState), (mkWithStream d st).1.OutStream = d) ∧
    (∀ (d : Nat) (sep eol : String) (st : StreamState),
      (mkFull d sep eol st).1.OutStream = d) ∧
    (∀ (st : StreamState), (mkDefault st).1.OutStream = wcoutId) ∧
    (∀ (sep eol : String) (st : StreamState),
      (mkWithStrings sep eol st).1.OutStream = wcoutId) :=
  ⟨fun _ _ => rfl, fun _ _ => rfl, fun _ _ => rfl, fun _ _ => rfl,
   fun _ _ _ _ => rfl, fun _ => rfl, fun _ _ _ => rfl⟩

/-- Claim C10: `FormatToColumns` on an empty first range writes nothing at all
(the stream is returned unchanged — zero lines, no end-of-line), whereas
`PrintRange` on an empty range still writes one end-of-line string and
`FormatToRows` on an empty first range writes one end-of-line string per input
sequence, hence at least one. -/
theorem empty_first_range_spec (om : OutputManager) (st : StreamState)
    (others othersR : List (List String)) :
    FormatToColumns om st [] others = st ∧
    PrintRange om st [] = write st om.EndOfLine ∧
    FormatToRows om st [] othersR =
      write st (concatAll (List.replicate (1 + othersR.length) om.EndOfLine)) :=
  ⟨rfl, rfl, FormatToRows_nil om st othersR⟩

end OutputManager
